import Mathlib

/-!
Verification development for the synthetic mental-health demand generator
(`src/generate_mental_health_data.py`).

The generator is a deterministically seeded stochastic pipeline.  We embed it
shallowly: the only stochastic inputs of the Python code are the draws taken
from the globally seeded `np.random` stream, so the embedding threads an
explicit random-oracle state `RNG` (a stream of natural numbers plus a cursor)
through the computation.  A Poisson draw consumes one oracle value (any natural
number is a possible outcome of `np.random.poisson`); a multinomial draw of
`n` items over `k` categories consumes `n` oracle values, interpreting each as
a category index (the support of `np.random.multinomial(n, w)` for positive
weights is exactly the set of `k`-vectors of naturals summing to `n`, which is
exactly what this model produces).  All structural theorems below quantify
over every oracle stream, hence cover every realisable behaviour of the
sampler.

The real-valued expected count (lambda of the Poisson draw, built from
`np.sin` and float multiplications) is embedded separately over `ℝ` as
`expected_presentations`; the exact rational constants of the source are kept.
-/

namespace MentalHealth

/-- The fixed region enumeration `HEALTH_BOARDS` of the source. -/
def HEALTH_BOARDS : List String :=
  ["NHS Ayrshire and Arran",
   "NHS Borders",
   "NHS Dumfries and Galloway",
   "NHS Fife",
   "NHS Forth Valley",
   "NHS Grampian",
   "NHS Greater Glasgow and Clyde",
   "NHS Highland",
   "NHS Lanarkshire",
   "NHS Lothian",
   "NHS Orkney",
   "NHS Shetland",
   "NHS Tayside",
   "NHS Western Isles"]

/-- The fixed age buckets `AGE_GROUPS` of the source. -/
def AGE_GROUPS : List String :=
  ["0-17", "18-25", "26-35", "36-45", "46-55", "56-65", "66-75", "76+"]

/-- The deprivation quintiles `SIMD_QUINTILES` of the source. -/
def SIMD_QUINTILES : List ℕ := [1, 2, 3, 4, 5]

/-- The fixed clinical categories `PRESENTATION_TYPES` of the source. -/
def PRESENTATION_TYPES : List String :=
  ["Self Harm",
   "Suicidal Ideation",
   "Acute Anxiety",
   "Depression",
   "Psychosis",
   "Substance Abuse",
   "Eating Disorder",
   "Other"]

/-- The `board_multipliers` dict of `generate_time_series_data`, as an
association list with exact rational values. -/
def board_multipliers : List (String × ℚ) :=
  [("NHS Greater Glasgow and Clyde", 5/2),
   ("NHS Lothian", 2),
   ("NHS Lanarkshire", 3/2),
   ("NHS Grampian", 13/10),
   ("NHS Tayside", 12/10),
   ("NHS Fife", 1),
   ("NHS Ayrshire and Arran", 1),
   ("NHS Highland", 9/10),
   ("NHS Forth Valley", 8/10),
   ("NHS Dumfries and Galloway", 6/10),
   ("NHS Borders", 4/10),
   ("NHS Western Isles", 2/10),
   ("NHS Orkney", 15/100),
   ("NHS Shetland", 15/100)]

/-- Embeds `board_multipliers.get(health_board, 1.0)`: a missing key
silently defaults to `1.0`. -/
def board_multiplier (hb : String) : ℚ :=
  (board_multipliers.lookup hb).getD 1

/-- Embeds `base_demand = 50 * board_multipliers.get(health_board, 1.0)`. -/
def base_demand (hb : String) : ℚ := 50 * board_multiplier hb

/-- The `age_weights` vector of the source (exact rationals). -/
def age_weights : List ℚ :=
  [8/100, 25/100, 20/100, 15/100, 15/100, 10/100, 5/100, 2/100]

/-- The `simd_weights` vector of the source (exact rationals). -/
def simd_weights : List ℚ := [35/100, 25/100, 20/100, 12/100, 8/100]

/-- The `type_weights` vector of the source (exact rationals). -/
def type_weights : List ℚ :=
  [18/100, 22/100, 15/100, 20/100, 8/100, 10/100, 3/100, 4/100]

/-- The `day_factor` lookup table of the source, keyed by day-of-week
0 = Monday .. 6 = Sunday. -/
def day_factor_table : List ℚ := [13/10, 11/10, 1, 1, 11/10, 9/10, 17/20]

/-- Embeds the `day_factor` dict lookup keyed by `day_of_week`; the key is
always a valid day-of-week, so we index with `Fin 7`. -/
def day_factor (d : Fin 7) : ℚ := day_factor_table.getD d.val 0

/-- Embeds `seasonal_factor = 1.0 + 0.3 * np.sin(2 * np.pi * (month - 1) / 12 + np.pi)`. -/
noncomputable def seasonal_factor (month : ℕ) : ℝ :=
  1 + 0.3 * Real.sin (2 * Real.pi * ((month : ℝ) - 1) / 12 + Real.pi)

/-- The `covid_factor` branch of the source: 1.4 for 2020-2021, 1.2 for 2022,
else 1.0.  The year is an integer, as in Python. -/
def covid_factor (year : ℤ) : ℚ :=
  if 2020 ≤ year ∧ year ≤ 2021 then 14/10
  else if year = 2022 then 12/10
  else 1

/-- Embeds `year_trend = 1.0 + 0.05 * (year - 2019)` over the integers, as
in Python (no truncation at zero). -/
def year_trend (year : ℤ) : ℚ := 1 + (5/100) * ((year : ℚ) - 2019)

/-- Embeds `expected_presentations = base_demand * seasonal_factor *
day_factor * covid_factor * year_trend`: the lambda handed to
`np.random.poisson`. -/
noncomputable def expected_presentations (hb : String) (month : ℕ) (year : ℤ)
    (dow : Fin 7) : ℝ :=
  (base_demand hb : ℝ) * seasonal_factor month * (day_factor dow : ℝ) *
    (covid_factor year : ℝ) * (year_trend year : ℝ)

/-- The random oracle: the globally seeded `np.random` stream.  `stream`
enumerates the draws the seeded generator will produce; `cursor` is how many
have been consumed. -/
structure RNG where
  stream : ℕ → ℕ
  cursor : ℕ

/-- Model of `np.random.poisson(lam)`: consumes one oracle value.  Any natural
number is a possible outcome of a Poisson draw, so the oracle value is
returned as the sample.  (For `lam < 0` numpy raises; the sign of the lambda
actually passed is analysed separately on `expected_presentations`.) -/
def np_poisson (g : RNG) : ℕ × RNG :=
  (g.stream g.cursor, ⟨g.stream, g.cursor + 1⟩)

/-- Model of `np.random.multinomial(n, weights)`: `n` oracle values are
interpreted as category indices (mod the number of categories) and tallied.
This produces exactly the vectors of `weights.length` naturals summing to
`n` - the support of the multinomial distribution. -/
def np_multinomial (n : ℕ) (weights : List ℚ) (g : RNG) : List ℕ × RNG :=
  let k := weights.length
  let draws := (List.range n).map (fun j => g.stream (g.cursor + j) % k)
  ((List.range k).map (fun i => draws.count i), ⟨g.stream, g.cursor + n⟩)

/-- One row of the generator output (one `data.append` of the source).  The
date is a day number (days since 1970-01-01, the resolution of a pandas
daily `date_range`). -/
structure Record where
  date : ℕ
  health_board : String
  age_group : String
  simd_quintile : ℕ
  presentation_type : String
  presentations : ℕ
deriving DecidableEq, Repr

/-- The innermost loop of `generate_time_series_data`: one record per
presentation type with a positive count. -/
def emitTypes (date : ℕ) (hb age : String) (simd : ℕ)
    (typeDist : List ℕ) : List Record :=
  (typeDist.zip PRESENTATION_TYPES).filterMap fun ct =>
    if 0 < ct.1 then some ⟨date, hb, age, simd, ct.2, ct.1⟩ else none

/-- The quintile loop: for each quintile with a positive count, draw the
per-category multinomial and emit its rows. -/
def emitQuintiles (date : ℕ) (hb age : String) :
    List (ℕ × ℕ) → RNG → List Record × RNG
  | [], g => ([], g)
  | (c, q) :: rest, g =>
    if 0 < c then
      let td := np_multinomial c type_weights g
      let rs := emitQuintiles date hb age rest td.2
      (emitTypes date hb age q td.1 ++ rs.1, rs.2)
    else
      emitQuintiles date hb age rest g

/-- The age loop: for each age bucket with a positive count, draw the
per-quintile multinomial and recurse. -/
def emitAges (date : ℕ) (hb : String) :
    List (ℕ × String) → RNG → List Record × RNG
  | [], g => ([], g)
  | (c, a) :: rest, g =>
    if 0 < c then
      let sd := np_multinomial c simd_weights g
      let recs := emitQuintiles date hb a (sd.1.zip SIMD_QUINTILES) sd.2
      let rs := emitAges date hb rest recs.2
      (recs.1 ++ rs.1, rs.2)
    else
      emitAges date hb rest g

/-- The body of the per-date loop of `generate_time_series_data`: draw the
daily total `T ~ Poisson(lambda)` (`presentations = max(0, int(...))` in the
source), disaggregate it over the age buckets, then recurse down the
hierarchy. -/
def processDay (hb : String) (date : ℕ) (g : RNG) : List Record × RNG :=
  let tg := np_poisson g
  let presentations := max 0 tg.1
  let ad := np_multinomial presentations age_weights tg.2
  emitAges date hb (ad.1.zip AGE_GROUPS) ad.2

/-- Embeds the daily `pd.date_range(start, end)` over day numbers: the
inclusive daily range, empty when `end` is before `start`. -/
def dateRange (s e : ℕ) : List ℕ :=
  if s ≤ e then (List.range (e - s + 1)).map (s + ·) else []

/-- The date loop of `generate_time_series_data`. -/
def processDays (hb : String) : List ℕ → RNG → List Record × RNG
  | [], g => ([], g)
  | d :: ds, g =>
    let r := processDay hb d g
    let rs := processDays hb ds r.2
    (r.1 ++ rs.1, rs.2)

/-- Embeds `generate_time_series_data(start_date, end_date, health_board)`:
the full per-region generator. -/
def generate_time_series_data (s e : ℕ) (hb : String) (g : RNG) :
    List Record × RNG :=
  processDays hb (dateRange s e) g

/-- Civil calendar from a day number (days since 1970-01-01), the standard
era-based algorithm used by date libraries; models the pandas accessors
`.dt.year` / `.dt.month` / `.dt.day`.  Valid for all days from 1970 on, which
covers every date the program touches. -/
def civilFromDays (z : ℕ) : ℕ × ℕ × ℕ :=
  let zz := z + 719468
  let era := zz / 146097
  let doe := zz % 146097
  let yoe := (doe - doe / 1460 + doe / 36524 - doe / 146096) / 365
  let y := yoe + era * 400
  let doy := doe - (365 * yoe + yoe / 4 - yoe / 100)
  let mp := (5 * doy + 2) / 153
  let d := doy - (153 * mp + 2) / 5 + 1
  let m := if mp < 10 then mp + 3 else mp - 9
  (if m ≤ 2 then y + 1 else y, m, d)

/-- Day number from a civil date (inverse of `civilFromDays`, valid from
1970 on). -/
def daysFromCivil (y m d : ℕ) : ℕ :=
  let yy := if m ≤ 2 then y - 1 else y
  let era := yy / 400
  let yoe := yy % 400
  let mp := if 2 < m then m - 3 else m + 9
  let doy := (153 * mp + 2) / 5 + d - 1
  let doe := yoe * 365 + yoe / 4 - yoe / 100 + doy
  era * 146097 + doe - 719468

/-- Embeds `date.dayofweek` (0 = Monday .. 6 = Sunday); day 0 = 1970-01-01
was a Thursday. -/
def dayOfWeek (day : ℕ) : ℕ := (day + 3) % 7

/-- Embeds the pandas isocalendar week accessor: the ISO week number, via
the Thursday of the week of the given day. -/
def weekOfYear (day : ℕ) : ℕ :=
  let thursday := day + 3 - dayOfWeek day
  let isoYear := (civilFromDays thursday).1
  (thursday - daysFromCivil isoYear 1 1) / 7 + 1

/-- One row of the concatenated full-grain table, after
`generate_complete_dataset` attaches the derived calendar columns. -/
structure FullRecord where
  date : ℕ
  health_board : String
  age_group : String
  simd_quintile : ℕ
  presentation_type : String
  presentations : ℕ
  year : ℕ
  month : ℕ
  day_of_week : ℕ
  week_of_year : ℕ
  is_weekend : ℕ
deriving DecidableEq, Repr

/-- The derived-column block of `generate_complete_dataset`:
`year`, `month`, `day_of_week`, `week_of_year`, and
`is_weekend = day_of_week.isin([5, 6]).astype(int)`. -/
def addDerived (r : Record) : FullRecord :=
  let dow := dayOfWeek r.date
  ⟨r.date, r.health_board, r.age_group, r.simd_quintile, r.presentation_type,
   r.presentations,
   (civilFromDays r.date).1, (civilFromDays r.date).2.1,
   dow, weekOfYear r.date,
   if dow = 5 ∨ dow = 6 then 1 else 0⟩

/-- The start date 2019-01-01 of `generate_complete_dataset`. -/
def startDay : ℕ := daysFromCivil 2019 1 1

/-- The end date 2024-10-31 of `generate_complete_dataset`. -/
def endDay : ℕ := daysFromCivil 2024 10 31

/-- The per-board loop of `generate_complete_dataset`, threading the single
globally seeded random stream through the boards in order. -/
def generateBoards : List String → RNG → List Record × RNG
  | [], g => ([], g)
  | b :: bs, g =>
    let r := generate_time_series_data startDay endDay b g
    let rs := generateBoards bs r.2
    (r.1 ++ rs.1, rs.2)

/-- Embeds `generate_complete_dataset`: concatenate the per-board tables,
sort by date, and attach the derived calendar columns. -/
def generate_complete_dataset (g : RNG) : List FullRecord :=
  let all := (generateBoards HEALTH_BOARDS g).1
  (all.mergeSort (fun a b => decide (a.date ≤ b.date))).map addDerived

/-- Insert-and-add for a grouped aggregation: add `v` to the entry for key
`k`, appending a fresh entry when the key is new. -/
def insertAdd {κ : Type} [DecidableEq κ] :
    List (κ × ℕ) → κ → ℕ → List (κ × ℕ)
  | [], k, v => [(k, v)]
  | (k0, v0) :: rest, k, v =>
    if k0 = k then (k0, v0 + v) :: rest
    else (k0, v0) :: insertAdd rest k v

/-- Embeds the pandas groupby-sum aggregation: sum the values of key-value
rows, grouped by key. -/
def groupSum {κ : Type} [DecidableEq κ] (rows : List (κ × ℕ)) : List (κ × ℕ) :=
  rows.foldl (fun acc kv => insertAdd acc kv.1 kv.2) []

/-- The daily summary of `save_data`: presentations summed by
(date, health_board). -/
def daily_summary (df : List FullRecord) : List ((ℕ × String) × ℕ) :=
  groupSum (df.map fun r => ((r.date, r.health_board), r.presentations))

/-- The YYYY-MM period string used by the monthly grouping of `save_data`. -/
def monthString (y m : ℕ) : String :=
  toString y ++ "-" ++ (if m < 10 then "0" ++ toString m else toString m)

/-- The monthly summary of `save_data`: presentations summed by
(month string, health_board, age_group, simd_quintile). -/
def monthly_summary (df : List FullRecord) :
    List ((String × String × String × ℕ) × ℕ) :=
  groupSum (df.map fun r =>
    ((monthString (civilFromDays r.date).1 (civilFromDays r.date).2.1,
      r.health_board, r.age_group, r.simd_quintile), r.presentations))

/-- Embeds `save_data`: the three persisted artifacts (full grain, daily
summary, monthly summary). -/
def save_data (df : List FullRecord) :
    List FullRecord × List ((ℕ × String) × ℕ) ×
      List ((String × String × String × ℕ) × ℕ) :=
  (df, daily_summary df, monthly_summary df)

/-- Sum of the `presentations` column over generator records. -/
def sumPres (l : List Record) : ℕ := (l.map Record.presentations).sum

/-- Sum of the `presentations` column over full-grain rows. -/
def sumPresFull (l : List FullRecord) : ℕ :=
  (l.map FullRecord.presentations).sum

/-- Total attributed to a key by a grouped table (sum over its entries with
that key; a grouped table has at most one). -/
def keyTotal {κ : Type} [DecidableEq κ] (rows : List (κ × ℕ)) (k : κ) : ℕ :=
  ((rows.filter fun kv => kv.1 = k).map Prod.snd).sum

/-! ## Helper lemmas -/

theorem sum_map_add {α : Type} (l : List α) (f g : α → ℕ) :
    (l.map fun x => f x + g x).sum = (l.map f).sum + (l.map g).sum := by
  induction l with
  | nil => rfl
  | cons a t ih => simp only [List.map_cons, List.sum_cons, ih]; omega

theorem sum_map_indicator (k a : ℕ) :
    ((List.range k).map fun i => if i = a then 1 else 0).sum
      = if a < k then 1 else 0 := by
  induction k with
  | zero => simp
  | succ k ih =>
    rw [List.range_succ, List.map_append, List.sum_append, ih]
    by_cases h : a < k
    · have hk : k ≠ a := by omega
      simp [h, hk, Nat.lt_succ_of_lt h]
    · by_cases h2 : k = a
      · simp [h, h2]
      · have : ¬ a < k + 1 := by omega
        simp [h, h2, this]

theorem sum_map_count_range (k : ℕ) (l : List ℕ) (h : ∀ x ∈ l, x < k) :
    ((List.range k).map fun i => l.count i).sum = l.length := by
  induction l with
  | nil => simp
  | cons a t ih =>
    have ha : a < k := h a (by simp)
    have ht : ∀ x ∈ t, x < k := fun x hx => h x (by simp [hx])
    have hcount : ∀ i : ℕ, (a :: t).count i = t.count i + if i = a then 1 else 0 := by
      intro i
      rw [List.count_cons]
      rcases eq_or_ne i a with hia | hia
      · subst hia; simp
      · simp [hia, hia.symm]
    calc ((List.range k).map fun i => (a :: t).count i).sum
        = ((List.range k).map fun i => t.count i + if i = a then 1 else 0).sum := by
          exact congrArg List.sum (List.map_congr_left fun i _ => hcount i)
      _ = ((List.range k).map fun i => t.count i).sum
            + ((List.range k).map fun i => if i = a then 1 else 0).sum :=
          sum_map_add _ _ _
      _ = t.length + 1 := by rw [ih ht, sum_map_indicator, if_pos ha]
      _ = (a :: t).length := by simp

/-- Child counts of the modelled multinomial sum exactly to the parent
count - the conservation guarantee of `np.random.multinomial`. -/
theorem np_multinomial_sum (n : ℕ) (w : List ℚ) (g : RNG) (hw : w ≠ []) :
    (np_multinomial n w g).1.sum = n := by
  have hk : 0 < w.length := List.length_pos.mpr hw
  unfold np_multinomial
  rw [sum_map_count_range]
  · simp
  · intro x hx
    simp only [List.mem_map, List.mem_range] at hx
    obtain ⟨j, _, rfl⟩ := hx
    exact Nat.mod_lt _ hk

theorem np_multinomial_length (n : ℕ) (w : List ℚ) (g : RNG) :
    (np_multinomial n w g).1.length = w.length := by
  simp [np_multinomial]

theorem sumPres_append (l1 l2 : List Record) :
    sumPres (l1 ++ l2) = sumPres l1 + sumPres l2 := by
  simp [sumPres]

theorem sumPres_filterPos (date : ℕ) (hb age : String) (q : ℕ)
    (l : List (ℕ × String)) :
    sumPres (l.filterMap fun ct =>
        if 0 < ct.1 then some ⟨date, hb, age, q, ct.2, ct.1⟩ else none)
      = (l.map Prod.fst).sum := by
  induction l with
  | nil => rfl
  | cons a t ih =>
    by_cases h : 0 < a.1
    · simp only [List.filterMap_cons, if_pos h, List.map_cons, List.sum_cons,
        sumPres, List.map_cons, List.sum_cons] at ih ⊢
      omega
    · simp only [List.filterMap_cons, if_neg h, List.map_cons, List.sum_cons, ih]
      omega

theorem sumPres_emitTypes (date : ℕ) (hb age : String) (q : ℕ)
    (dist : List ℕ) (h : dist.length ≤ PRESENTATION_TYPES.length) :
    sumPres (emitTypes date hb age q dist) = dist.sum := by
  unfold emitTypes
  rw [sumPres_filterPos, List.map_fst_zip _ _ h]

theorem sumPres_emitQuintiles (date : ℕ) (hb age : String) :
    ∀ (l : List (ℕ × ℕ)) (g : RNG),
      sumPres (emitQuintiles date hb age l g).1 = (l.map Prod.fst).sum := by
  intro l
  induction l with
  | nil => intro g; rfl
  | cons a t ih =>
    intro g
    obtain ⟨c, q⟩ := a
    simp only [emitQuintiles]
    by_cases h : 0 < c
    · rw [if_pos h]
      simp only [List.map_cons, List.sum_cons]
      rw [sumPres_append, ih, sumPres_emitTypes, np_multinomial_sum]
      · exact List.cons_ne_nil _ _
      · rw [np_multinomial_length]
        exact le_refl _
    · rw [if_neg h, ih]
      have h0 : c = 0 := by omega
      simp [h0]

theorem sumPres_emitAges (date : ℕ) (hb : String) :
    ∀ (l : List (ℕ × String)) (g : RNG),
      sumPres (emitAges date hb l g).1 = (l.map Prod.fst).sum := by
  intro l
  induction l with
  | nil => intro g; rfl
  | cons a t ih =>
    intro g
    obtain ⟨c, ag⟩ := a
    simp only [emitAges]
    by_cases h : 0 < c
    · rw [if_pos h]
      simp only [List.map_cons, List.sum_cons]
      rw [sumPres_append, ih, sumPres_emitQuintiles, List.map_fst_zip,
        np_multinomial_sum]
      · exact List.cons_ne_nil _ _
      · rw [np_multinomial_length]
        exact le_refl _
    · rw [if_neg h, ih]
      have h0 : c = 0 := by omega
      simp [h0]

theorem sumPres_processDay (hb : String) (d : ℕ) (g : RNG) :
    sumPres (processDay hb d g).1 = (np_poisson g).1 := by
  unfold processDay
  rw [sumPres_emitAges, List.map_fst_zip, np_multinomial_sum]
  · omega
  · exact List.cons_ne_nil _ _
  · rw [np_multinomial_length]
    exact le_refl _

/-! ## Claim theorems -/

/-- C3: totals are exactly conserved at every disaggregation level: for every
parent count `n` and every oracle state, the per-age, per-quintile and
per-category multinomial child counts sum to `n`; consequently, for every
(date, region) cell the presentations of all emitted records sum to the
sampled daily total `T` (the Poisson draw of that cell). -/
theorem conservation_of_totals :
    (∀ (n : ℕ) (g : RNG),
      (np_multinomial n age_weights g).1.sum = n
      ∧ (np_multinomial n simd_weights g).1.sum = n
      ∧ (np_multinomial n type_weights g).1.sum = n)
    ∧ (∀ (hb : String) (d : ℕ) (g : RNG),
      sumPres (processDay hb d g).1 = (np_poisson g).1) := by
  constructor
  · intro n g
    refine ⟨?_, ?_, ?_⟩ <;>
      exact np_multinomial_sum _ _ _ (List.cons_ne_nil _ _)
  · exact sumPres_processDay

theorem mem_emitTypes {r : Record} {date : ℕ} {hb age : String} {q : ℕ}
    {dist : List ℕ} (h : r ∈ emitTypes date hb age q dist) :
    r.date = date ∧ r.health_board = hb ∧ 1 ≤ r.presentations := by
  unfold emitTypes at h
  rw [List.mem_filterMap] at h
  obtain ⟨ct, _, hct⟩ := h
  by_cases hc : 0 < ct.1
  · rw [if_pos hc] at hct
    cases hct
    exact ⟨rfl, rfl, hc⟩
  · rw [if_neg hc] at hct
    cases hct

theorem mem_emitQuintiles {r : Record} (date : ℕ) (hb age : String) :
    ∀ (l : List (ℕ × ℕ)) (g : RNG), r ∈ (emitQuintiles date hb age l g).1 →
      r.date = date ∧ r.health_board = hb ∧ 1 ≤ r.presentations := by
  intro l
  induction l with
  | nil => intro g h; cases h
  | cons a t ih =>
    intro g h
    obtain ⟨c, q⟩ := a
    simp only [emitQuintiles] at h
    by_cases hc : 0 < c
    · rw [if_pos hc] at h
      rcases List.mem_append.mp h with h1 | h2
      · exact mem_emitTypes h1
      · exact ih _ h2
    · rw [if_neg hc] at h
      exact ih _ h

theorem mem_emitAges {r : Record} (date : ℕ) (hb : String) :
    ∀ (l : List (ℕ × String)) (g : RNG), r ∈ (emitAges date hb l g).1 →
      r.date = date ∧ r.health_board = hb ∧ 1 ≤ r.presentations := by
  intro l
  induction l with
  | nil => intro g h; cases h
  | cons a t ih =>
    intro g h
    obtain ⟨c, ag⟩ := a
    simp only [emitAges] at h
    by_cases hc : 0 < c
    · rw [if_pos hc] at h
      rcases List.mem_append.mp h with h1 | h2
      · exact mem_emitQuintiles _ _ _ _ _ h1
      · exact ih _ h2
    · rw [if_neg hc] at h
      exact ih _ h

theorem mem_processDay {r : Record} {hb : String} {d : ℕ} {g : RNG}
    (h : r ∈ (processDay hb d g).1) :
    r.date = d ∧ r.health_board = hb ∧ 1 ≤ r.presentations := by
  unfold processDay at h
  exact mem_emitAges _ _ _ _ h

theorem mem_processDays {r : Record} (hb : String) :
    ∀ (ds : List ℕ) (g : RNG), r ∈ (processDays hb ds g).1 →
      r.date ∈ ds ∧ r.health_board = hb ∧ 1 ≤ r.presentations := by
  intro ds
  induction ds with
  | nil => intro g h; cases h
  | cons d t ih =>
    intro g h
    simp only [processDays] at h
    rcases List.mem_append.mp h with h1 | h2
    · obtain ⟨hd, hhb, hp⟩ := mem_processDay h1
      exact ⟨by simp [hd], hhb, hp⟩
    · obtain ⟨hd, hhb, hp⟩ := ih _ h2
      exact ⟨by simp [hd], hhb, hp⟩

theorem mem_dateRange {d s e : ℕ} (h : d ∈ dateRange s e) : s ≤ d ∧ d ≤ e := by
  unfold dateRange at h
  by_cases hse : s ≤ e
  · rw [if_pos hse] at h
    simp only [List.mem_map, List.mem_range] at h
    obtain ⟨j, hj, rfl⟩ := h
    omega
  · rw [if_neg hse] at h
    cases h

/-- C5: every record emitted by the generator has `presentations ≥ 1`;
zero-count leaves are never materialised. -/
theorem emitted_records_positive (s e : ℕ) (hb : String) (g : RNG) :
    ∀ r ∈ (generate_time_series_data s e hb g).1, 1 ≤ r.presentations :=
  fun _ h => (mem_processDays _ _ _ h).2.2

/-- Witness for C5 at a concrete input: the one record produced by the
all-ones oracle on a one-day range has a positive count. -/
theorem emitted_records_positive_witness :
    (⟨0, "NHS Fife", "18-25", 2, "Suicidal Ideation", 1⟩ : Record)
        ∈ (generate_time_series_data 0 0 "NHS Fife" ⟨fun _ => 1, 0⟩).1
      ∧ 1 ≤ (⟨0, "NHS Fife", "18-25", 2, "Suicidal Ideation", 1⟩ :
          Record).presentations :=
  ⟨by decide,
   emitted_records_positive 0 0 "NHS Fife" ⟨fun _ => 1, 0⟩ _ (by decide)⟩

/-- C9: for `start ≤ end`, every emitted record has its date inside the
closed range and its region equal to the region argument. -/
theorem records_in_range_and_region (s e : ℕ) (hb : String) (g : RNG)
    (_hse : s ≤ e) :
    ∀ r ∈ (generate_time_series_data s e hb g).1,
      s ≤ r.date ∧ r.date ≤ e ∧ r.health_board = hb := by
  intro r h
  obtain ⟨hd, hhb, _⟩ := mem_processDays _ _ _ h
  obtain ⟨h1, h2⟩ := mem_dateRange hd
  exact ⟨h1, h2, hhb⟩

/-- Witness for C9 at a concrete input: a record of a concrete two-day run
lies in the range and carries the requested region. -/
theorem records_in_range_and_region_witness :
    (0 : ℕ) ≤ 1
      ∧ (0 ≤ (⟨0, "NHS Borders", "18-25", 2, "Suicidal Ideation", 1⟩ :
            Record).date
          ∧ (⟨0, "NHS Borders", "18-25", 2, "Suicidal Ideation", 1⟩ :
            Record).date ≤ 1
          ∧ (⟨0, "NHS Borders", "18-25", 2, "Suicidal Ideation", 1⟩ :
            Record).health_board = "NHS Borders") :=
  ⟨by decide,
   records_in_range_and_region 0 1 "NHS Borders" ⟨fun _ => 1, 0⟩ (by decide) _
     (by decide)⟩

/-- C1 counterexample: a call with a region identifier outside the fixed
enumeration does not fail and does not produce an empty result - the
multiplier silently defaults to `1.0` and a record is emitted (the all-ones
oracle on the one-day range 2019-01-01, a date where the lambda of the
source is positive - about 55 - so a Poisson draw of 1 is realisable). -/
theorem unknown_region_produces_records :
    (generate_time_series_data (daysFromCivil 2019 1 1) (daysFromCivil 2019 1 1)
        "NHS Narnia" ⟨fun _ => 1, 0⟩).1
      = [⟨daysFromCivil 2019 1 1, "NHS Narnia", "18-25", 2,
          "Suicidal Ideation", 1⟩] := by
  decide

/-- C1 amended: neither misconfiguration is an error. An unknown region
identifier makes `board_multipliers.get` silently fall back to the default
multiplier `1.0` (and generation proceeds, as the counterexample shows), and
`end_date` before `start_date` silently yields an empty table. -/
theorem misconfiguration_is_silent :
    (∀ hb : String, board_multipliers.lookup hb = none →
       board_multiplier hb = 1)
    ∧ (∀ (s e : ℕ) (hb : String) (g : RNG), e < s →
       (generate_time_series_data s e hb g).1 = []) := by
  constructor
  · intro hb h
    unfold board_multiplier
    rw [h]
    rfl
  · intro s e hb g h
    unfold generate_time_series_data dateRange
    rw [if_neg (by omega)]
    rfl

/-- Witness for the amended C1 at concrete inputs: "NHS Narnia" is
not a key of the multiplier dict yet gets multiplier 1, and a run with
`end = 1 < 2 = start` returns no records. -/
theorem misconfiguration_is_silent_witness :
    (board_multipliers.lookup "NHS Narnia" = none
      ∧ board_multiplier "NHS Narnia" = 1)
    ∧ (daysFromCivil 2019 1 1 < daysFromCivil 2019 1 2
      ∧ (generate_time_series_data (daysFromCivil 2019 1 2)
          (daysFromCivil 2019 1 1) "NHS Grampian" ⟨fun _ => 1, 0⟩).1 = []) :=
  ⟨⟨by decide, misconfiguration_is_silent.1 "NHS Narnia" (by decide)⟩,
   ⟨by decide,
    misconfiguration_is_silent.2 (daysFromCivil 2019 1 2) (daysFromCivil 2019 1 1)
      "NHS Grampian" ⟨fun _ => 1, 0⟩ (by decide)⟩⟩

/-- C8: the three fixed weight vectors have the declared lengths, are
non-negative entrywise, sum to 1 within `1e-9` (in the exact-rational
embedding they sum to exactly 1), and the quintile weights strictly decrease
from quintile 1 to quintile 5. -/
theorem weight_vectors_normalized :
    age_weights.length = 8 ∧ simd_weights.length = 5 ∧ type_weights.length = 8
    ∧ age_weights.Forall (fun w => 0 ≤ w)
    ∧ simd_weights.Forall (fun w => 0 ≤ w)
    ∧ type_weights.Forall (fun w => 0 ≤ w)
    ∧ |age_weights.sum - 1| ≤ 1 / 1000000000
    ∧ |simd_weights.sum - 1| ≤ 1 / 1000000000
    ∧ |type_weights.sum - 1| ≤ 1 / 1000000000
    ∧ simd_weights.Chain' (fun a b => b < a) := by
  refine ⟨rfl, rfl, rfl, ?_, ?_, ?_, ?_, ?_, ?_, ?_⟩ <;>
    norm_num [age_weights, simd_weights, type_weights, List.Forall,
      List.chain'_cons, abs_le]

theorem keyTotal_cons {κ : Type} [DecidableEq κ] (a : κ × ℕ)
    (t : List (κ × ℕ)) (k : κ) :
    keyTotal (a :: t) k = (if a.1 = k then a.2 else 0) + keyTotal t k := by
  by_cases h : a.1 = k <;> simp [keyTotal, List.filter_cons, h]

theorem keyTotal_insertAdd {κ : Type} [DecidableEq κ] (k0 k : κ) (v : ℕ) :
    ∀ acc : List (κ × ℕ),
      keyTotal (insertAdd acc k0 v) k
        = keyTotal acc k + if k0 = k then v else 0 := by
  intro acc
  induction acc with
  | nil =>
    by_cases h : k0 = k <;> simp [insertAdd, keyTotal, h]
  | cons a t ih =>
    obtain ⟨ka, va⟩ := a
    simp only [insertAdd]
    by_cases h1 : ka = k0
    · rw [if_pos h1]
      subst h1
      rw [keyTotal_cons, keyTotal_cons]
      dsimp only
      split_ifs <;> omega
    · rw [if_neg h1]
      rw [keyTotal_cons, keyTotal_cons, ih]
      omega

theorem keyTotal_foldl_insertAdd {κ : Type} [DecidableEq κ] (k : κ) :
    ∀ (rows : List (κ × ℕ)) (acc : List (κ × ℕ)),
      keyTotal (rows.foldl (fun a kv => insertAdd a kv.1 kv.2) acc) k
        = keyTotal acc k + keyTotal rows k := by
  intro rows
  induction rows with
  | nil => intro acc; simp [keyTotal]
  | cons a t ih =>
    intro acc
    obtain ⟨ka, va⟩ := a
    simp only [List.foldl_cons]
    rw [ih, keyTotal_insertAdd, keyTotal_cons]
    dsimp only
    omega

/-- The grouped table attributes to every key exactly the total carried by
the input rows for that key. -/
theorem keyTotal_groupSum {κ : Type} [DecidableEq κ] (rows : List (κ × ℕ))
    (k : κ) : keyTotal (groupSum rows) k = keyTotal rows k := by
  unfold groupSum
  rw [keyTotal_foldl_insertAdd]
  simp [keyTotal]

theorem keyTotal_map_kv (d : ℕ) (hb : String) :
    ∀ T : List FullRecord,
      keyTotal (T.map fun r => ((r.date, r.health_board), r.presentations))
          (d, hb)
        = sumPresFull (T.filter fun r => r.date = d ∧ r.health_board = hb) := by
  intro T
  induction T with
  | nil => rfl
  | cons r t ih =>
    simp only [List.map_cons, List.filter_cons]
    rw [keyTotal_cons]
    by_cases h : r.date = d ∧ r.health_board = hb
    · have hk : ((r.date, r.health_board) : ℕ × String) = (d, hb) := by
        rw [h.1, h.2]
      rw [if_pos hk, if_pos (by simpa using h)]
      simp only [sumPresFull, List.map_cons, List.sum_cons] at ih ⊢
      rw [ih]
    · have hk : ¬ ((r.date, r.health_board) : ℕ × String) = (d, hb) := by
        intro he
        exact h ⟨congrArg Prod.fst he, congrArg Prod.snd he⟩
      rw [if_neg hk, if_neg (by simpa using h)]
      rw [ih]
      omega

/-- C6: the daily summary is a round-trip-consistent aggregation of the
full-grain table: for every (date, region) key, the total the summary
attributes to that key equals the sum of `presentations` over the rows of
the generated full-grain table with that date and region. -/
theorem daily_summary_roundtrip (g : RNG) (d : ℕ) (hb : String) :
    keyTotal (daily_summary (generate_complete_dataset g)) (d, hb)
      = sumPresFull ((generate_complete_dataset g).filter
          fun r => r.date = d ∧ r.health_board = hb) := by
  unfold daily_summary
  rw [keyTotal_groupSum, keyTotal_map_kv]

/-- C4: the pipeline is a deterministic function of the seed and the fixed
parameters: two runs whose seeded random streams agree produce identical
full-grain, daily and monthly tables (the embedding has no other source of
variation - wall clock, environment and scheduling do not enter any
definition). -/
theorem pipeline_deterministic (f g : ℕ → ℕ) (h : ∀ n, f n = g n) :
    save_data (generate_complete_dataset ⟨f, 0⟩)
      = save_data (generate_complete_dataset ⟨g, 0⟩) := by
  have : f = g := funext h
  rw [this]

/-- Witness for C4 at a concrete input: the two artifacts of two runs with
the same concrete stream coincide. -/
theorem pipeline_deterministic_witness :
    save_data (generate_complete_dataset ⟨fun _ => 0, 0⟩)
      = save_data (generate_complete_dataset ⟨fun _ => 0, 0⟩) :=
  pipeline_deterministic (fun _ => 0) (fun _ => 0) (fun _ => rfl)

/-- C10: in the concatenated full table, `is_weekend` is 1 exactly on rows
whose `day_of_week` is 5 or 6 (Saturday or Sunday), and 0 otherwise. -/
theorem is_weekend_consistent (g : RNG) :
    (generate_complete_dataset g).Forall fun row =>
      (row.is_weekend = 1 ↔ (row.day_of_week = 5 ∨ row.day_of_week = 6))
      ∧ (row.is_weekend = 0 ↔ ¬ (row.day_of_week = 5 ∨ row.day_of_week = 6)) := by
  rw [List.forall_iff_forall_mem]
  intro row hrow
  unfold generate_complete_dataset at hrow
  rw [List.mem_map] at hrow
  obtain ⟨r, _, rfl⟩ := hrow
  unfold addDerived
  by_cases h : dayOfWeek r.date = 5 ∨ dayOfWeek r.date = 6
  · simp [h]
  · simp [h]

/-! ## The seasonal factor at the months of interest

`seasonal_factor m = 1 + 0.3 * sin (2 pi (m - 1) / 12 + pi)
                   = 1 - 0.3 * sin (pi (m - 1) / 6)`. -/

theorem seasonal_factor_jan : seasonal_factor 1 = 1 := by
  unfold seasonal_factor
  norm_num [Real.sin_pi]

theorem seasonal_factor_feb : seasonal_factor 2 = 1 - 3/20 := by
  unfold seasonal_factor
  have h : 2 * Real.pi * (((2 : ℕ) : ℝ) - 1) / 12 + Real.pi
      = Real.pi / 6 + Real.pi := by
    push_cast
    ring
  rw [h, Real.sin_add_pi, Real.sin_pi_div_six]
  norm_num

theorem seasonal_factor_mar : seasonal_factor 3 = 1 - 3/20 * Real.sqrt 3 := by
  unfold seasonal_factor
  have h : 2 * Real.pi * (((3 : ℕ) : ℝ) - 1) / 12 + Real.pi
      = Real.pi / 3 + Real.pi := by
    push_cast
    ring
  rw [h, Real.sin_add_pi, Real.sin_pi_div_three]
  ring

theorem seasonal_factor_jun : seasonal_factor 6 = 1 - 3/20 := by
  unfold seasonal_factor
  have h : 2 * Real.pi * (((6 : ℕ) : ℝ) - 1) / 12 + Real.pi
      = (Real.pi - Real.pi / 6) + Real.pi := by
    push_cast
    ring
  rw [h, Real.sin_add_pi, Real.sin_pi_sub, Real.sin_pi_div_six]
  norm_num

theorem seasonal_factor_jul : seasonal_factor 7 = 1 := by
  unfold seasonal_factor
  have h : 2 * Real.pi * (((7 : ℕ) : ℝ) - 1) / 12 + Real.pi
      = 2 * Real.pi := by
    push_cast
    ring
  rw [h, Real.sin_two_pi]
  norm_num

theorem seasonal_factor_aug : seasonal_factor 8 = 1 + 3/20 := by
  unfold seasonal_factor
  have h : 2 * Real.pi * (((8 : ℕ) : ℝ) - 1) / 12 + Real.pi
      = (Real.pi / 6 + Real.pi) + Real.pi := by
    push_cast
    ring
  rw [h, Real.sin_add_pi, Real.sin_add_pi, Real.sin_pi_div_six]
  norm_num

theorem seasonal_factor_nonneg (m : ℕ) : 0 ≤ seasonal_factor m := by
  unfold seasonal_factor
  nlinarith [Real.neg_one_le_sin (2 * Real.pi * ((m : ℝ) - 1) / 12 + Real.pi)]

/-! ## Sign facts about the remaining factors -/

theorem lookup_getD_pos (hb : String) :
    ∀ l : List (String × ℚ), (∀ p ∈ l, 0 < p.2) → 0 < (l.lookup hb).getD 1 := by
  intro l
  induction l with
  | nil => intro _; simp [List.lookup]
  | cons a t ih =>
    intro h
    obtain ⟨k, v⟩ := a
    simp only [List.lookup]
    rcases hbe : hb == k with _ | _
    · exact ih fun p hp => h p (by simp [hp])
    · simpa using h (k, v) (by simp)

theorem board_multiplier_pos (hb : String) : 0 < board_multiplier hb := by
  unfold board_multiplier
  refine lookup_getD_pos hb board_multipliers ?_
  simp only [board_multipliers, List.forall_mem_cons, List.forall_mem_nil]
  norm_num

theorem base_demand_pos (hb : String) : 0 < base_demand hb := by
  unfold base_demand
  have := board_multiplier_pos hb
  positivity

theorem day_factor_pos : ∀ d : Fin 7, 0 < day_factor d := by
  intro d
  fin_cases d <;> norm_num [day_factor, day_factor_table]

theorem covid_factor_pos (y : ℤ) : 0 < covid_factor y := by
  unfold covid_factor
  split_ifs <;> norm_num

theorem year_trend_nonneg {y : ℤ} (h : 1999 ≤ y) : 0 ≤ year_trend y := by
  unfold year_trend
  have hy : (1999 : ℚ) ≤ (y : ℚ) := by exact_mod_cast h
  linarith

/-! ## Concrete factor values used at concrete inputs -/

theorem board_multiplier_fife : board_multiplier "NHS Fife" = 1 := rfl

theorem day_factor_monday : day_factor 0 = 13/10 := rfl

theorem covid_factor_2020 : covid_factor 2020 = 14/10 := by
  norm_num [covid_factor]

theorem covid_factor_1998 : covid_factor 1998 = 1 := by
  norm_num [covid_factor]

theorem year_trend_2020 : year_trend 2020 = 21/20 := by
  norm_num [year_trend]

theorem year_trend_1998 : year_trend 1998 = -(1/20) := by
  norm_num [year_trend]

/-- C2 (refuting the stated direction): with region, year and weekday held
fixed (NHS Fife, 2020, Monday), the sum of the expected counts over
January-March is strictly BELOW the sum over June-August: the sinusoid
`1 + 0.3*sin(2 pi (month-1)/12 + pi)` has its trough in April and its peak
in October, so the generated seasonality contradicts the winter-peak
behaviour that the claim (and the dashboard narrative shipped with the
repository) describe. -/
theorem seasonal_winter_below_summer :
    expected_presentations "NHS Fife" 1 2020 0
        + expected_presentations "NHS Fife" 2 2020 0
        + expected_presentations "NHS Fife" 3 2020 0
      < expected_presentations "NHS Fife" 6 2020 0
        + expected_presentations "NHS Fife" 7 2020 0
        + expected_presentations "NHS Fife" 8 2020 0 := by
  unfold expected_presentations base_demand
  rw [seasonal_factor_jan, seasonal_factor_feb, seasonal_factor_mar,
    seasonal_factor_jun, seasonal_factor_jul, seasonal_factor_aug,
    board_multiplier_fife, day_factor_monday, covid_factor_2020,
    year_trend_2020]
  push_cast
  nlinarith [Real.sqrt_nonneg 3]

/-- C7 counterexample: for a calendar day in January 1998 the expected count
handed to `np.random.poisson` is negative (the year trend
`1 + 0.05*(year - 2019)` is below zero for years before 1999, and the code
floors the sampled integer after the draw, not the lambda before it). -/
theorem expected_presentations_neg_1998 :
    expected_presentations "NHS Fife" 1 1998 0 < 0 := by
  unfold expected_presentations base_demand
  rw [seasonal_factor_jan, board_multiplier_fife, day_factor_monday,
    covid_factor_1998, year_trend_1998]
  push_cast
  norm_num

/-- C7 amended: for every region, month and weekday, and every year from
1999 on (in particular throughout the generated 2019-2024 range), the
expected count lambda passed to the Poisson sampler is non-negative; the
`max(0, .)` of the source is applied to the sampled integer after the draw,
not to lambda before it. -/
theorem expected_presentations_nonneg (hb : String) (m : ℕ) (y : ℤ)
    (d : Fin 7) (h : 1999 ≤ y) : 0 ≤ expected_presentations hb m y d := by
  unfold expected_presentations
  have h1 : (0 : ℝ) ≤ (base_demand hb : ℚ) := by
    exact_mod_cast (base_demand_pos hb).le
  have h2 : (0 : ℝ) ≤ seasonal_factor m := seasonal_factor_nonneg m
  have h3 : (0 : ℝ) ≤ (day_factor d : ℚ) := by
    exact_mod_cast (day_factor_pos d).le
  have h4 : (0 : ℝ) ≤ (covid_factor y : ℚ) := by
    exact_mod_cast (covid_factor_pos y).le
  have h5 : (0 : ℝ) ≤ (year_trend y : ℚ) := by
    exact_mod_cast year_trend_nonneg h
  exact mul_nonneg (mul_nonneg (mul_nonneg (mul_nonneg h1 h2) h3) h4) h5

/-- Witness for the amended C7 at a concrete input (NHS Fife,
January 2020, Monday). -/
theorem expected_presentations_nonneg_witness :
    (1999 : ℤ) ≤ 2020
      ∧ 0 ≤ expected_presentations "NHS Fife" 1 2020 0 :=
  ⟨by decide, expected_presentations_nonneg "NHS Fife" 1 2020 0 (by decide)⟩

end MentalHealth
